import Mathlib

/-!
Verification of the claude-code-mem background worker and knowledge-graph
engine. The JavaScript sources are shallowly embedded: pure computations
become Lean functions over explicit data; the Node.js event loop is modelled
as a step relation on an explicit worker state; filesystem and network
effects appear as explicit parameters describing their outcome. JS `Map`
objects become association lists in insertion order (which is exactly the
iteration order JS guarantees), and JS exceptions become `Option`/sum
outcomes at the `try`/`catch` boundaries of the source.
-/

namespace ClaudeCodeMem

/-! ## JS string primitives

The hook scripts compare strings with `String.prototype.includes` and
`String.prototype.toLowerCase`, and slice ids with `substring`. The records
involved are ASCII/BMP text, so code-unit indexing coincides with character
indexing and we model strings character-wise. -/

/-- JS `s.toLowerCase()` restricted to the alphabets the scripts compare
(ASCII keywords and CJK text, which is case-invariant). -/
def jsToLower (s : String) : String := String.mk (s.data.map Char.toLower)

/-- JS `haystack.includes(needle)`: substring containment. -/
def jsIncludes (haystack needle : String) : Bool :=
  decide (needle.data <:+: haystack.data)

/-- JS `s.substring(0, n)` (character-wise; ids are ASCII UUID strings). -/
def strTake (s : String) (n : Nat) : String := String.mk (s.data.take n)

/-- JS `s.startsWith(p)`. -/
def strStartsWith (s p : String) : Bool := decide (p.data <+: s.data)

/-- JS `s.endsWith(p)`. -/
def strEndsWith (s p : String) : Bool := decide (p.data <:+ s.data)

/-- Dropping the first `n` characters of `s`; models
`name.replace('会话_', '')` on a name that starts with that 3-character
prefix (the first occurrence is then exactly the prefix). -/
def strDropChars (s : String) (n : Nat) : String := String.mk (s.data.drop n)

/-! ## Worker self-supervision (heartbeat monitor, `worker.js` with monitor)

`checkHeartbeat` reads `heartbeat.txt`, parses it with `parseInt` and
compares the age against a one-hour idle threshold. The file read has three
abnormal outcomes mirrored by `HeartbeatFile`: the file is missing
(`existsSync` false), reading it throws (caught, return `true`), or
`parseInt` yields `NaN` (every subsequent `>` comparison on `NaN` is false,
so the stale branch is not taken). -/

/-- Outcome of reading and parsing the heartbeat file.
`parsed none` models a `NaN` result from `parseInt`. -/
inductive HeartbeatFile
  | missing
  | readError
  | parsed (ts : Option Int)
deriving DecidableEq

/-- `maxIdleTime` from `checkHeartbeat`: one hour in milliseconds. -/
def maxIdleTime : Int := 3600000

/-- `checkHeartbeat` from the worker: `true` means "still active, keep
running"; `false` triggers the idle shutdown. -/
def checkHeartbeat (now : Int) (file : HeartbeatFile) : Bool :=
  match file with
  | .missing => true
  | .readError => true
  | .parsed none => true
  | .parsed (some ts) => if now - ts > maxIdleTime then false else true

/-- The constant `PARENT_PROCESS_CHECK` in the worker source. -/
def PARENT_PROCESS_CHECK : Bool := true

/-- What one tick of `startHeartbeatMonitor`'s interval decides. -/
inductive MonitorDecision
  | keepRunning
  | shutdownParentGone
  | shutdownIdle
deriving DecidableEq

/-- One tick of the supervision timer in `startHeartbeatMonitor`: first the
parent-process liveness probe, then the heartbeat-file check. -/
def monitorTick (parentAlive : Bool) (now : Int) (file : HeartbeatFile) : MonitorDecision :=
  if PARENT_PROCESS_CHECK && !parentAlive then .shutdownParentGone
  else if !(checkHeartbeat now file) then .shutdownIdle
  else .keepRunning

/-! ## Generic helpers shared by several components -/

/-- Insert into a descending-sorted list, before the first element that the
new element may precede. Inserting elements left-to-right makes the overall
sort stable, which is exactly the guarantee JS `Array.prototype.sort` gives
(ES2019) for the comparator-based sorts in these scripts. -/
def insertSorted (le : α → α → Bool) (a : α) : List α → List α
  | [] => [a]
  | b :: bs => if le a b then a :: b :: bs else b :: insertSorted le a bs

/-- Stable sort with respect to `le a b` = "a may come before b". -/
def stableSortBy (le : α → α → Bool) : List α → List α
  | [] => []
  | a :: as => insertSorted le a (stableSortBy le as)

/-! ## Event Log read path (`readMemoryFile`, `GET /api/records`)

`readMemoryFile` splits `mem.jsonl` into non-blank lines, keeps the last
`limit` lines with `lines.slice(-limit)`, parses each and drops lines that
fail to parse. A line is modelled after blank-filtering as
`Option MemRecord`: `none` is a line `JSON.parse` rejects. Only the `type`
discriminator of a record is consulted by this endpoint; the remaining
fields are irrelevant to it and carried as an opaque payload string. -/

structure MemRecord where
  type : String
  payload : String
deriving DecidableEq

/-- JS `lines.slice(-limit)`: the last `limit` elements; `slice(-0)` is
`slice(0)`, the whole array (reached when the query string carries
`limit=0`). -/
def jsSliceLast (limit : Nat) (lines : List α) : List α :=
  if limit = 0 then lines else lines.drop (lines.length - limit)

/-- `readMemoryFile` from `worker.js`: truncate to the last `limit` lines,
then keep those that parse. -/
def readMemoryFile (limit : Nat) (lines : List (Option MemRecord)) : List MemRecord :=
  (jsSliceLast limit lines).filterMap id

structure RecordsResponse where
  total : Nat
  records : List MemRecord
deriving DecidableEq

/-- The `GET /api/records` handler: read the last `limit` records, filter by
the optional `type` parameter, and report `total` as the length of the
filtered list. -/
def handleRecords (limit : Nat) (typeFilter : Option String)
    (lines : List (Option MemRecord)) : RecordsResponse :=
  let records := readMemoryFile limit lines
  let filtered :=
    match typeFilter with
    | some t => records.filter (fun r => r.type == t)
    | none => records
  ⟨filtered.length, filtered⟩

/-- A concrete Event Log: two observation records followed by one
user message, each on its own parseable line. -/
def c10Log : List (Option MemRecord) :=
  [some ⟨"observation", "o1"⟩, some ⟨"observation", "o2"⟩, some ⟨"user_message", "u1"⟩]

/-! ## `POST /api/analyze` body handling

The handler runs `const { sessionData, sessionId } = JSON.parse(body)`
inside a `try` whose `catch` answers 400. Destructuring throws a
`TypeError` exactly when the parsed value is `null` (`undefined` cannot
come out of `JSON.parse`); every other JSON value — numbers, strings,
arrays, objects with or without the two fields — destructures fine, with
missing fields becoming `undefined`. `sessionId || Date.now()` replaces a
missing or falsy `sessionId` by the current wall-clock time. -/

inductive JsonVal
  | jnull
  | jbool (b : Bool)
  | jnum (n : Int)
  | jstr (s : String)
  | jarr (elems : List JsonVal)
  | jobj (fields : List (String × JsonVal))

/-- Field access `v.key` on a parsed JSON value: `none` models JS
`undefined` (missing field, or any non-object receiver). `JSON.parse`
output has no duplicate keys, so first-match lookup is exact. -/
def getField (v : JsonVal) (key : String) : Option JsonVal :=
  match v with
  | .jobj fields => (fields.find? (fun p => p.1 == key)).map (fun p => p.2)
  | _ => none

/-- JS truthiness of a possibly-`undefined` JSON value. -/
def jsTruthy : Option JsonVal → Bool
  | none => false
  | some .jnull => false
  | some (.jbool b) => b
  | some (.jnum n) => !(n == 0)
  | some (.jstr s) => !(s == "")
  | some (.jarr _) => true
  | some (.jobj _) => true

/-- Outcome of `JSON.parse(body)`. -/
inductive BodyParse
  | parseError
  | parsed (v : JsonVal)

/-- The `sessionId` stored in a queued task: the body's value when truthy,
otherwise `Date.now()`. -/
inductive TaskSessionId
  | fromBody (v : JsonVal)
  | defaulted (now : Int)

/-- A task pushed onto `analysisQueue` by the handler. `sessionData` is the
body field verbatim (possibly `undefined`): the handler performs no schema
validation. -/
structure AnalyzeTask where
  sessionId : TaskSessionId
  sessionData : Option JsonVal

structure AnalyzeResult where
  status : Nat
  queuePosition : Option Nat
  queue : List AnalyzeTask

/-- The `POST /api/analyze` request handler. -/
def handleAnalyze (body : BodyParse) (now : Int) (queue : List AnalyzeTask) :
    AnalyzeResult :=
  match body with
  | .parseError => ⟨400, none, queue⟩
  | .parsed .jnull => ⟨400, none, queue⟩
  | .parsed v =>
    let sid := getField v "sessionId"
    let task : AnalyzeTask :=
      { sessionId :=
          match sid with
          | some sv => if jsTruthy (some sv) then .fromBody sv else .defaulted now
          | none => .defaulted now
        sessionData := getField v "sessionData" }
    let newQueue := queue ++ [task]
    ⟨202, some newQueue.length, newQueue⟩

/-! ## Worker queue and crash behaviour (`worker.js`)

The worker is single-threaded. Its observable scheduling behaviour is
captured by a step function over an explicit state: `submit` models the
`POST /api/analyze` handler pushing onto `analysisQueue` (and scheduling
`processQueue` via `setImmediate`); `wake` models a `processQueue`
invocation running (it returns immediately when `isProcessing` is set or
the queue is empty, otherwise sets the flag and shifts the head into
flight); `finishTask ok` models the awaited `analyzeSession` settling —
`ok = false` is a rejection, caught by the `try`/`catch` inside the
`while` loop and merely logged, after which the loop shifts the next task
or clears the flag. `uncaughtException` and `unhandledRejection` model the
two `process.on` handlers: the first logs and then calls `shutdown()`, the
second only logs. `supervisionShutdown` is the monitor-triggered
`shutdown()` of `startHeartbeatMonitor`. -/

/-- One queued analysis task, identified by its session id. -/
structure QueueTask where
  sessionId : Int
deriving DecidableEq

structure WorkerState where
  queue : List QueueTask
  isProcessing : Bool
  current : Option QueueTask
  completed : List QueueTask
  submitted : List QueueTask
  alive : Bool
deriving DecidableEq

def initialWorkerState : WorkerState :=
  { queue := [], isProcessing := false, current := none,
    completed := [], submitted := [], alive := true }

inductive WorkerEvent
  | submit (t : QueueTask)
  | wake
  | finishTask (ok : Bool)
  | uncaughtException
  | unhandledRejection
  | supervisionShutdown

def workerStep (s : WorkerState) (e : WorkerEvent) : WorkerState :=
  match e with
  | .submit t =>
    { s with queue := s.queue ++ [t], submitted := s.submitted ++ [t] }
  | .wake =>
    if s.isProcessing then s
    else
      match s.queue with
      | [] => s
      | t :: rest => { s with isProcessing := true, current := some t, queue := rest }
  | .finishTask _ =>
    match s.current with
    | none => s
    | some t =>
      match s.queue with
      | [] =>
        { s with current := none, isProcessing := false, completed := s.completed ++ [t] }
      | t2 :: rest =>
        { s with current := some t2, queue := rest, completed := s.completed ++ [t] }
  | .uncaughtException => { s with alive := false }
  | .unhandledRejection => s
  | .supervisionShutdown => { s with alive := false }

def runWorker (evs : List WorkerEvent) : WorkerState :=
  evs.foldl workerStep initialWorkerState

/-- The scheduling invariant of the worker: the submission order is exactly
the completed tasks, then the in-flight task (at most one), then the
pending queue; and the `isProcessing` flag is clear only when nothing is in
flight. -/
def WorkerInv (s : WorkerState) : Prop :=
  s.submitted = s.completed ++ s.current.toList ++ s.queue ∧
  (s.isProcessing = false → s.current = none)

/-! ## Graph Query Engine (`user_prompt.js` memory injector)

Entities and relations are read from `knowledge_graph.jsonl`. For the query
side, an entity timestamp is the epoch-millisecond value of
`new Date(entity.timestamp)`; `none` models both a missing/falsy timestamp
(the `if (entity.timestamp)` guard) and an unparseable one (`NaN`, for
which both recency comparisons are false) — in all of which no recency
bonus applies. -/

structure QEntity where
  name : String
  entityType : String
  project : Option String
  observations : List String
  timestamp : Option Int
deriving DecidableEq

structure QRelation where
  from_ : String
  to_ : String
  relationType : String
  project : Option String
deriving DecidableEq

inductive QGraphLine
  | entity (e : QEntity)
  | relation (r : QRelation)
  | badLine
deriving DecidableEq

/-- The per-keyword test of the scoring loop:
`text.toLowerCase().includes(keyword.toLowerCase())`. -/
def kwMatch (keyword text : String) : Bool :=
  jsIncludes (jsToLower text) (jsToLower keyword)

/-- One day in milliseconds, from `(1000 * 60 * 60 * 24)`. -/
def dayMs : Int := 86400000

/-- The scoring loop of `searchKnowledgeGraph`: +10 per keyword matching
the name, +2 per (observation, keyword) matching pair, then the recency
bonus with its exclusive `if`/`else if` tiers. -/
def scoreEntity (keywords : List String) (e : QEntity) (nowMs : Int) : Nat :=
  let s1 := keywords.foldl (fun sc k => if kwMatch k e.name then sc + 10 else sc) 0
  let s2 := e.observations.foldl
    (fun sc obs => keywords.foldl (fun sc2 k => if kwMatch k obs then sc2 + 2 else sc2) sc) s1
  match e.timestamp with
  | none => s2
  | some ts =>
    if nowMs - ts < 7 * dayMs then s2 + 3
    else if nowMs - ts < 30 * dayMs then s2 + 1
    else s2

/-- The recency bonus in isolation. -/
def recencyBonus (timestamp : Option Int) (nowMs : Int) : Nat :=
  match timestamp with
  | none => 0
  | some ts =>
    if nowMs - ts < 7 * dayMs then 3
    else if nowMs - ts < 30 * dayMs then 1
    else 0

/-! ## Search pipeline and prompt injection (`user_prompt.js`)

`searchKnowledgeGraph` loads the graph file, applies the project-isolation
filter, extracts keywords (LLM-backed with fallback to the simple
tokenizer — both outcomes are summarized by the `keywords` parameter,
whose value the scoring stage receives either way), scores, thresholds and
ranks. The configuration mirrors `DEFAULT_CONFIG` merged with
`memory_config.json`. -/

structure QConfig where
  enabled : Bool
  max_entities : Nat
  show_marker : Bool
  debug : Bool
  use_llm_keywords : Bool
  llm_keywords_timeout : Nat
  min_score_threshold : Nat
  project_isolation : Bool
  include_other_projects : Bool
deriving DecidableEq

/-- `DEFAULT_CONFIG` of the injector (fields absent there are JS
`undefined`, i.e. falsy, modelled `false`/`0`). -/
def DEFAULT_CONFIG : QConfig :=
  { enabled := true, max_entities := 5, show_marker := true, debug := true,
    use_llm_keywords := true, llm_keywords_timeout := 3000,
    min_score_threshold := 30, project_isolation := false,
    include_other_projects := false }

/-- JS truthiness of an optional string value. -/
def jsStrTruthy : Option String → Bool
  | none => false
  | some s => !(s == "")

/-- The `continue` condition of the project-isolation filter:
skip the line iff isolation is on, the item carries a truthy project tag
that differs from the current project, and other projects are not
included. -/
def projSkip (cfg : QConfig) (current : Option String) (proj : Option String) : Bool :=
  cfg.project_isolation && jsStrTruthy proj && !(proj == current) &&
    !cfg.include_other_projects

/-- The load loop of `searchKnowledgeGraph`: split graph-file lines into
entity and relation pools, skipping unparseable lines and
project-filtered items, preserving file order. -/
def collectGraph (graph : List QGraphLine) (cfg : QConfig) (current : Option String) :
    List QEntity × List QRelation :=
  graph.foldl
    (fun acc it =>
      match it with
      | .badLine => acc
      | .entity e => if projSkip cfg current e.project then acc else (acc.1 ++ [e], acc.2)
      | .relation r => if projSkip cfg current r.project then acc else (acc.1, acc.2 ++ [r]))
    ([], [])

/-- A scored entity as pushed onto `scoredEntities`. -/
structure ScoredEntity where
  entity : QEntity
  score : Nat
deriving DecidableEq

structure MemoryData where
  entities : List QEntity
  relations : List QRelation
deriving DecidableEq

/-- `config.min_score_threshold || 30` (a configured `0` is falsy). -/
def minScoreOf (cfg : QConfig) : Nat :=
  if cfg.min_score_threshold = 0 then 30 else cfg.min_score_threshold

/-- `config.max_entities || 5`. -/
def maxEntitiesOf (cfg : QConfig) : Nat :=
  if cfg.max_entities = 0 then 5 else cfg.max_entities

/-- The deterministic tail of `searchKnowledgeGraph` after keyword
extraction: score each entity (keeping only positive scores, in pool
order), sort stably by descending score, apply the minimum-score
threshold, take the top `max_entities`, then gather up to 5 relations
touching a retained entity name. -/
def searchCore (graph : List QGraphLine) (keywords : List String) (cfg : QConfig)
    (current : Option String) (nowMs : Int) : MemoryData :=
  let pools := collectGraph graph cfg current
  if keywords.isEmpty then ⟨[], []⟩
  else
    let scored := pools.1.filterMap (fun e =>
      let sc := scoreEntity keywords e nowMs
      if sc > 0 then some (⟨e, sc⟩ : ScoredEntity) else none)
    let sorted := stableSortBy (fun a b => decide (b.score ≤ a.score)) scored
    let filtered := sorted.filter (fun sc => decide (minScoreOf cfg ≤ sc.score))
    let top := filtered.take (maxEntitiesOf cfg)
    let relevantEntities := top.map (fun sc => sc.entity)
    let names := relevantEntities.map (fun e => e.name)
    let relevantRelations := pools.2.filter
      (fun r => names.contains r.from_ || names.contains r.to_)
    ⟨relevantEntities, relevantRelations.take 5⟩

/-- The whitespace class used by the injector regexes (`\s`, restricted to
the characters occurring in these logs). -/
def isJsSpace (c : Char) : Bool :=
  c == ' ' || c == '\t' || c == '\n' || c == '\r'

/-- `\w` of JS regexes: ASCII letters, digits and underscore. -/
def isWordCharJs (c : Char) : Bool := c.isAlpha || c.isDigit || c == '_'

/-- The CJK range `\u4e00-\u9fa5` kept by the cleanup regexes. -/
def isCjk (c : Char) : Bool :=
  decide (0x4e00 ≤ c.toNat) && decide (c.toNat ≤ 0x9fa5)

/-- `text.replace(/[^\w\s\u4e00-\u9fa5]/g, ' ')` on one character. -/
def cleanChar (c : Char) : Char :=
  if isWordCharJs c || isJsSpace c || isCjk c then c else ' '

/-- `text.split(/\s+/)` up to the empty leading token JS produces for
leading whitespace, which the immediately following length-≥-2 filter
discards in both semantics. -/
def splitWsAux : List Char → List Char → List (List Char)
  | [], acc => if acc.isEmpty then [] else [acc.reverse]
  | c :: rest, acc =>
    if isJsSpace c then
      if acc.isEmpty then splitWsAux rest [] else acc.reverse :: splitWsAux rest []
    else splitWsAux rest (c :: acc)

def splitWs (s : String) : List String := (splitWsAux s.data []).map String.mk

/-- The stopword list of `extractKeywordsSimple` in the injector. -/
def injectorStopWords : List String :=
  ["的", "了", "是", "在", "我", "有", "和", "就", "不", "人", "都", "一", "个",
   "上", "也", "很", "到", "说", "要", "去", "你", "会", "着", "没有", "看",
   "好", "自己", "这", "什么", "怎么", "为什么", "如何"]

/-- `extractKeywordsSimple` of the injector: lowercase, strip punctuation,
split on whitespace, keep tokens of length ≥ 2 outside the stopword list,
and deduplicate preserving first occurrence (`[...new Set(words)]`). -/
def extractKeywordsSimple (text : String) : List String :=
  let words := (splitWs (String.mk ((jsToLower text).data.map cleanChar))).filter
    (fun w => decide (2 ≤ w.length) && !(injectorStopWords.contains w))
  words.eraseDups

/-- `formatMemoryContext`: one entity block (name, type, up to three
non-blank observations). -/
def formatEntityBlock (e : QEntity) : String :=
  "**" ++ e.name ++ "** (" ++ e.entityType ++ "):\n" ++
  String.join ((e.observations.take 3).filterMap (fun obs =>
    if String.mk ((obs.data.dropWhile isJsSpace).reverse.dropWhile isJsSpace).reverse = ""
    then none else some ("  - " ++ obs ++ "\n"))) ++ "\n"

def formatRelationsBlock (rels : List QRelation) : String :=
  if rels.length > 0 then
    "**相关联系:**\n" ++
    String.join (rels.map (fun r =>
      "  - " ++ r.from_ ++ " " ++ r.relationType ++ " " ++ r.to_ ++ "\n")) ++ "\n"
  else ""

/-- `formatMemoryContext` from the injector: the empty string when no
entity was retained, otherwise the marked, delimited memory block. -/
def formatMemoryContext (md : MemoryData) (cfg : QConfig) : String :=
  if md.entities.length = 0 then ""
  else
    (if cfg.show_marker then "\n\n🧠 **[插件注入的记忆]**\n\n" else "\n\n")
    ++ "<relevant_memory>\n"
    ++ "根据记忆系统,以下信息可能相关:\n\n"
    ++ String.join (md.entities.map formatEntityBlock)
    ++ formatRelationsBlock md.relations
    ++ "</relevant_memory>\n\n"
    ++ (if cfg.debug then
          "<!-- 记忆注入: 找到 " ++ toString md.entities.length ++ " 个相关实体 -->\n\n"
        else "")

/-- The prompt/content fields of the parsed stdin payload (remaining
fields are spread unchanged into the output and are irrelevant here). -/
structure PromptData where
  prompt : String
  content : String
deriving DecidableEq

/-- What the hook writes to stdout: either the raw stdin data verbatim
(`console.log(inputData)`) or the re-serialized payload with the enhanced
prompt. -/
inductive HookOutput
  | passthrough (raw : String)
  | enhancedOut (d : PromptData)
deriving DecidableEq

/-- Outcome of the awaited `searchKnowledgeGraph` call: `threw` covers an
exception raised anywhere inside the pipeline (file reads, keyword
extraction, scoring, formatting of logs), caught by the end-handler's
`catch`. -/
inductive SearchOutcome
  | threw
  | returned (md : MemoryData)

/-- The stdin `end` handler of the injector. `parsed = none` models
`JSON.parse(inputData)` (or the subsequent field access) throwing — the
`catch` branch prints the original input. -/
def handleUserPrompt (inputData : String) (cfg : QConfig)
    (parsed : Option PromptData) (search : SearchOutcome) : HookOutput :=
  if !cfg.enabled then .passthrough inputData
  else
    match parsed with
    | none => .passthrough inputData
    | some d =>
      let userInput := if d.prompt ≠ "" then d.prompt else d.content
      if userInput = "" then .passthrough inputData
      else
        match search with
        | .threw => .passthrough inputData
        | .returned md =>
          let enhancedPrompt :=
            if md.entities.length > 0 then formatMemoryContext md cfg ++ userInput
            else userInput
          .enhancedOut ⟨enhancedPrompt, enhancedPrompt⟩

/-! ## Knowledge Graph Builder (`knowledge_graph_builder.js`)

Event Log records relevant to graph building; `otherRecord` stands for any
parseable record of a type the builder skips (and, for the builder's
purposes, also an unparseable line, which the per-line `try`/`catch`
skips identically). Fields that the writers may omit arrive as JS
`undefined`/`''`; following the writers in `worker.js`, text fields are
modelled as strings with `""` for an absent value, which the
template-and-filter logic treats the same way. -/

structure SummaryRecord where
  id : String
  project : Option String
  investigated : String
  learned : String
  completed : String
  next_steps : String
  message_count : Nat
  timestamp : String
deriving DecidableEq

structure ObservationRecord where
  id : String
  project : Option String
  obs_type : String
  title : String
  insight : String
  concepts : List String
  files : List String
  timestamp : String
deriving DecidableEq

inductive EventRecord
  | summary (s : SummaryRecord)
  | obs (o : ObservationRecord)
  | otherRecord
deriving DecidableEq

/-- A graph-store entity as written by the builder. -/
structure GEntity where
  name : String
  entityType : String
  project : Option String
  observations : List String
  timestamp : String
deriving DecidableEq

structure GRelation where
  from_ : String
  to_ : String
  relationType : String
  project : Option String
deriving DecidableEq

/-- A line of `knowledge_graph.jsonl` as the incremental builder re-reads
it. -/
inductive GraphLine
  | entity (e : GEntity)
  | relation (r : GRelation)
  | badLine
deriving DecidableEq

/-- The stopword list of the builder's `extractKeywordsSimple` (distinct
from the injector's list). -/
def kgStopWords : List String :=
  ["的", "了", "是", "在", "我", "有", "和", "就", "不", "人", "都", "一", "个",
   "上", "也", "很", "到", "说", "要", "去", "你", "会", "着", "没有", "看",
   "好", "自己", "这", "进行", "可能", "系统", "使用"]

/-- One frequency-count step over the builder's `wordCount` object,
modelled as an insertion-ordered association list. (JS `Object.entries`
would additionally front-load integer-like keys; the extracted keyword
tokens here are not array indices, so insertion order applies.) -/
def bumpCount (counts : List (String × Nat)) (w : String) : List (String × Nat) :=
  if counts.any (fun p => p.1 == w) then
    counts.map (fun p => if p.1 == w then (p.1, p.2 + 1) else p)
  else counts ++ [(w, 1)]

def wordCounts (ws : List String) : List (String × Nat) := ws.foldl bumpCount []

/-- The builder's `extractKeywordsSimple`: strip punctuation (no
lowercasing in this variant), split on whitespace, keep tokens of length
≥ 2 outside the stopword list, and return the five most frequent tokens
(stable sort by descending count). -/
def extractKeywordsSimpleKG (text : String) : List String :=
  if text = "" then []
  else
    let words := (splitWs (String.mk (text.data.map cleanChar))).filter
      (fun w => decide (2 ≤ w.length) && !(kgStopWords.contains w))
    ((stableSortBy (fun a b => decide (b.2 ≤ a.2)) (wordCounts words)).take 5).map
      (fun p => p.1)

/-- `extractEntitiesFromSummary`: one session entity named
`会话_<first 8 id chars>`, plus up to three concept entities with a
`涉及` relation each. -/
def extractEntitiesFromSummary (s : SummaryRecord) : List GEntity × List GRelation :=
  let sessionName := "会话_" ++ strTake s.id 8
  let sessionEntity : GEntity :=
    { name := sessionName
      entityType := "会话"
      project := s.project
      observations :=
        (["调查: " ++ s.investigated, "学习: " ++ s.learned, "完成: " ++ s.completed,
          "下一步: " ++ s.next_steps, "时间: " ++ s.timestamp,
          "消息数: " ++ toString s.message_count]).filter
          (fun o => !(strEndsWith o ": "))
      timestamp := s.timestamp }
  let keywords := (extractKeywordsSimpleKG
    (s.investigated ++ " " ++ s.learned ++ " " ++ s.completed)).take 3
  let conceptEntities := keywords.map (fun kw =>
    ({ name := kw, entityType := "概念", project := s.project,
       observations := ["在会话中提及: " ++ s.timestamp], timestamp := s.timestamp } : GEntity))
  let conceptRelations := keywords.map (fun kw =>
    ({ from_ := sessionName, to_ := kw, relationType := "涉及",
       project := s.project } : GRelation))
  (sessionEntity :: conceptEntities, conceptRelations)

/-- `extractEntitiesFromObservation`: one observation entity (named by its
title, or `观察_<first 8 id chars>` when the title is absent), plus a file
entity and `涉及文件` relation per non-empty file path. -/
def extractEntitiesFromObservation (o : ObservationRecord) : List GEntity × List GRelation :=
  let obsName := if o.title ≠ "" then o.title else "观察_" ++ strTake o.id 8
  let obsEntity : GEntity :=
    { name := obsName
      entityType := if o.obs_type ≠ "" then o.obs_type else "discovery"
      project := o.project
      observations :=
        (["洞察: " ++ o.insight, "概念: " ++ String.intercalate ", " o.concepts,
          "文件: " ++ String.intercalate ", " o.files, "时间: " ++ o.timestamp]).filter
          (fun x => !(strEndsWith x ": "))
      timestamp := o.timestamp }
  let fileEntities := (o.files.filter (fun f => f ≠ "")).map (fun f =>
    ({ name := f, entityType := "文件", project := o.project,
       observations := [o.obs_type ++ "操作: " ++ o.timestamp],
       timestamp := o.timestamp } : GEntity))
  let fileRelations := (o.files.filter (fun f => f ≠ "")).map (fun f =>
    ({ from_ := obsName, to_ := f, relationType := "涉及文件",
       project := o.project } : GRelation))
  (obsEntity :: fileEntities, fileRelations)

/-- The record dispatch of both build loops, with the `continue` branch
for every other record type. -/
def extractRecord : EventRecord → List GEntity × List GRelation
  | .summary s => extractEntitiesFromSummary s
  | .obs o => extractEntitiesFromObservation o
  | .otherRecord => ([], [])

/-- Merging one extracted entity into the `allEntities` map (JS `Map`
keyed by `name`, insertion-ordered): an existing entry gets the new
observations appended; a new name is appended at the end. -/
def insertEntity (m : List GEntity) (e : GEntity) : List GEntity :=
  if m.any (fun x => x.name == e.name) then
    m.map (fun x =>
      if x.name == e.name then
        { x with observations := x.observations ++ e.observations }
      else x)
  else m ++ [e]

/-- The relation dedup key `from|relationType|to`. -/
def relKey (r : GRelation) : String := r.from_ ++ "|" ++ r.relationType ++ "|" ++ r.to_

/-- One `uniqueRelations.set(key, rel)` step: an existing key keeps its
position but takes the new value; a new key is appended. -/
def insertRelation (m : List GRelation) (r : GRelation) : List GRelation :=
  if m.any (fun x => relKey x == relKey r) then
    m.map (fun x => if relKey x == relKey r then r else x)
  else m ++ [r]

/-- `buildKnowledgeGraph` (full rebuild): fold every summary/observation
record through extraction, merging entities by name and accumulating
relations; finally deduplicate relations by key. The output is the pair
(entity lines, relation lines) in the order they are serialized. -/
def buildKnowledgeGraph (log : List EventRecord) : List GEntity × List GRelation :=
  let folded := log.foldl
    (fun (acc : List GEntity × List GRelation) (r : EventRecord) =>
      let extracted := extractRecord r
      (extracted.1.foldl insertEntity acc.1, acc.2 ++ extracted.2))
    ([], [])
  (folded.1, folded.2.foldl insertRelation [])

/-- All entities extracted from the log, in extraction order, before any
merging. -/
def extractedEntities (log : List EventRecord) : List GEntity :=
  (log.map (fun r => (extractRecord r).1)).flatten

/-- All relations extracted from the log, before dedup. -/
def extractedRelations (log : List EventRecord) : List GRelation :=
  (log.map (fun r => (extractRecord r).2)).flatten

/-- The observation list the full rebuild stores for name `n`: the single
matching output entity's observations (output names are unique). -/
def entityObsOf (m : List GEntity) (n : String) : List String :=
  ((m.filter (fun e => e.name == n)).map (fun e => e.observations)).flatten

/-! ### Incremental update (`buildKnowledgeGraphIncremental`) -/

/-- The `processedIds` scan: collect `name.replace('会话_','')`, in file
order, for every entity line whose name starts with `会话_`. -/
def processedIds : List GraphLine → List String
  | [] => []
  | .entity e :: rest =>
    if strStartsWith e.name "会话_" then strDropChars e.name 3 :: processedIds rest
    else processedIds rest
  | .relation _ :: rest => processedIds rest
  | .badLine :: rest => processedIds rest

/-- The new-record filter of the incremental build: a summary or
observation record whose 8-character id prefix is not among the collected
ids. -/
def isNewRecord (pids : List String) : EventRecord → Bool
  | .summary s => !(pids.contains (strTake s.id 8))
  | .obs o => !(pids.contains (strTake o.id 8))
  | .otherRecord => false

/-- `buildKnowledgeGraphIncremental`: re-read the graph file, collect
processed ids, filter the log, extract the new records and append all new
entity lines followed by all new relation lines (nothing is appended when
no record passes the filter). -/
def buildKnowledgeGraphIncremental (graph : List GraphLine) (log : List EventRecord) :
    List GraphLine :=
  let pids := processedIds graph
  let newRecords := log.filter (isNewRecord pids)
  if newRecords.isEmpty then graph
  else
    let newEntities := (newRecords.map (fun r => (extractRecord r).1)).flatten
    let newRelations := (newRecords.map (fun r => (extractRecord r).2)).flatten
    graph ++ newEntities.map GraphLine.entity ++ newRelations.map GraphLine.relation

/-! ### Full-rebuild properties (C5) -/

/-- Names are pairwise distinct — the invariant of the `allEntities` map. -/
def NodupNames (m : List GEntity) : Prop :=
  (m.map (fun e => e.name)).Nodup

/-- A one-record Event Log used to witness C5 concretely. -/
def c5Log : List EventRecord :=
  [EventRecord.obs
    { id := "abcdefgh", project := none, obs_type := "bugfix", title := "T",
      insight := "i", concepts := [], files := ["f.js"], timestamp := "2024" }]

/-! ### Incremental-update properties (C3) -/

/-- Whether a log contains any observation record. -/
def hasObsRecord (log : List EventRecord) : Bool :=
  log.any (fun r => match r with | .obs _ => true | _ => false)

/-- A log holding one observation record: its id prefix never appears in a
`会话_` entity name, so reruns reprocess it. -/
def c3Log : List EventRecord :=
  [EventRecord.obs
    { id := "abcdefgh", project := none, obs_type := "discovery", title := "T",
      insight := "i", concepts := [], files := [], timestamp := "t" }]

/-- A one-summary log for the C3 witness. -/
def c3SummaryLog : List EventRecord :=
  [EventRecord.summary
    { id := "11112222rest", project := none, investigated := "", learned := "",
      completed := "", next_steps := "", message_count := 0, timestamp := "t" }]

/-! ## LLM Analysis Client (`llm_analyzer.js`)

`analyzeSession` resolves credentials from the environment, partitions the
session records, builds a conversation text and asks the API for a
structured summary. The network transport is a parameter: `transportError`
covers a rejected request (connection refused, timeout), a non-2xx status
and an unparseable response body — every such rejection is caught by the
`try`/`catch` in `generateSessionSummary`, which returns `null`. Parsing
the brace-delimited region of the model's reply is `JSON.parse`, whose
outcome the `parseSummaryJson` parameter describes (`none` = it threw, also
caught). All paths return an `Option`: the embedding is total, mirroring
"never throws to the caller". -/

structure EnvConfig where
  anthropicAuthToken : Option String
  anthropicBaseUrl : Option String
  anthropicDefaultHaikuModel : Option String
  anthropicApiKey : Option String
  claudeApiKey : Option String
deriving DecidableEq

structure ApiConfig where
  apiKey : String
  baseUrl : String
  model : String
  source : String
deriving DecidableEq

/-- JS `value || fallback` on an environment string. -/
def orDefault (v : Option String) (d : String) : String :=
  match v with
  | some s => if s = "" then d else s
  | none => d

/-- A truthy environment string, or nothing. -/
def truthyStr : Option String → Option String
  | some s => if s = "" then none else some s
  | none => none

/-- `getApiConfig`: host auth token first, then the user API keys, else
`null`. -/
def getApiConfig (env : EnvConfig) : Option ApiConfig :=
  let baseUrl := orDefault env.anthropicBaseUrl "https://api.anthropic.com"
  let defaultModel := orDefault env.anthropicDefaultHaikuModel "claude-3-5-haiku-20241022"
  match truthyStr env.anthropicAuthToken with
  | some tok => some ⟨tok, baseUrl, defaultModel, "claude_code"⟩
  | none =>
    match truthyStr env.anthropicApiKey <|> truthyStr env.claudeApiKey with
    | some key => some ⟨key, baseUrl, defaultModel, "user_config"⟩
    | none => none

inductive SessionRecord
  | userMessage (content : String)
  | assistantMessage (content : String)
  | toolExecution (toolName : String)
  | otherSession
deriving DecidableEq

/-- Outcome of the single `callClaudeAPI` invocation. -/
inductive ApiOutcome
  | transportError (msg : String)
  | ok (contentText : String)

def braceOpen : Char := Char.ofNat 123

def braceClose : Char := Char.ofNat 125

/-- The greedy regex match over the reply text: the region from the first
opening brace to the last closing brace, when the latter follows the
former. -/
def matchBraceRegion (s : String) : Option String :=
  let cs := s.data
  match cs.findIdx? (fun c => c == braceOpen) with
  | none => none
  | some i =>
    match cs.reverse.findIdx? (fun c => c == braceClose) with
    | none => none
    | some jrev =>
      let j := cs.length - 1 - jrev
      if i ≤ j then some (String.mk ((cs.take (j + 1)).drop i)) else none

/-- The four summary text fields plus observation payloads as parsed from
the model's JSON reply. -/
structure SummaryBody where
  investigated : String
  learned : String
  completed : String
  next_steps : String
  observationPayloads : List String
deriving DecidableEq

/-- The summary returned to the worker: the parsed body spread together
with the analysis metadata. -/
structure SessionSummary where
  body : SummaryBody
  analyzed_at_model_used : String
  source : String
deriving DecidableEq

/-- `generateSessionSummary`: call the API, extract the brace region,
parse it, attach metadata; every failure returns `null` via the
surrounding `catch`. -/
def generateSessionSummary (api : ApiOutcome)
    (parseSummaryJson : String → Option SummaryBody) (cfg : ApiConfig) :
    Option SessionSummary :=
  match api with
  | .transportError _ => none
  | .ok content =>
    match matchBraceRegion content with
    | none => none
    | some region =>
      match parseSummaryJson region with
      | none => none
      | some body => some ⟨body, cfg.model, cfg.source⟩

/-- `msg.length > 500 ? msg.substring(0, 500) + '...' : msg`. -/
def truncate500 (msg : String) : String :=
  if msg.data.length > 500 then strTake msg 500 ++ "..." else msg

/-- Number the messages `1. ..`, `2. ..` as the prompt builder does. -/
def numberLines (msgs : List String) : String :=
  String.join (msgs.enum.map (fun p => toString (p.1 + 1) ++ ". " ++ p.2 ++ "\n"))

/-- The conversation text assembled by `analyzeSession` (user requests,
the last three assistant responses truncated to 500 characters, and the
deduplicated tool-name history). -/
def buildConversationText (userMessages assistantMessages toolExecutions : List String) :
    String :=
  let head := "=== 用户请求 ===\n" ++ numberLines userMessages
  let mid :=
    if assistantMessages.length > 0 then
      "\n=== 助手响应摘要 ===\n" ++
        numberLines ((assistantMessages.drop (assistantMessages.length - 3)).map truncate500)
    else
      "\n=== 助手响应 ===\n(无助手响应，请基于用户请求和工具执行推测完成的工作)\n"
  let tail :=
    if toolExecutions.length > 0 then
      "\n=== 工具执行历史 ===\n" ++ "执行的工具: " ++
        String.intercalate ", " toolExecutions.eraseDups ++ "\n" ++
        "总共执行: " ++ toString toolExecutions.length ++ " 次\n"
    else ""
  head ++ mid ++ tail

/-- `analyzeSession`: resolve credentials, partition the session records,
require at least one user message, then generate the summary. -/
def analyzeSession (env : EnvConfig) (sessionData : List SessionRecord)
    (api : ApiOutcome) (parseSummaryJson : String → Option SummaryBody) :
    Option SessionSummary :=
  match getApiConfig env with
  | none => none
  | some cfg =>
    let userMessages := sessionData.filterMap
      (fun r => match r with | .userMessage c => some c | _ => none)
    let assistantMessages := sessionData.filterMap
      (fun r => match r with | .assistantMessage c => some c | _ => none)
    let toolExecutions := sessionData.filterMap
      (fun r => match r with | .toolExecution t => some t | _ => none)
    if userMessages.isEmpty then none
    else
      let _conversationText :=
        buildConversationText userMessages assistantMessages toolExecutions
      generateSessionSummary api parseSummaryJson cfg

/-- An environment with no credentials configured. -/
def emptyEnv : EnvConfig := ⟨none, none, none, none, none⟩

/-! ## Theorems -/

theorem string_data_append (a b : String) : (a ++ b).data = a.data ++ b.data := by
  cases a; cases b; rfl

/-- C9: the idle-heartbeat check fails open. A missing, unreadable or
unparseable heartbeat file reports the worker as active, and the monitor
decides the idle shutdown exactly when a readable heartbeat file carries a
timestamp more than one hour before `now`. -/
theorem C9_heartbeat_fails_open (parentAlive : Bool) (now : Int) (file : HeartbeatFile) :
    checkHeartbeat now .missing = true ∧
    checkHeartbeat now .readError = true ∧
    checkHeartbeat now (.parsed none) = true ∧
    (monitorTick parentAlive now file = .shutdownIdle ↔
      parentAlive = true ∧ ∃ ts, file = .parsed (some ts) ∧ now - ts > maxIdleTime) := by
  refine ⟨rfl, rfl, rfl, ?_⟩
  constructor
  · intro h
    cases parentAlive with
    | false => simp [monitorTick, PARENT_PROCESS_CHECK] at h
    | true =>
      refine ⟨rfl, ?_⟩
      cases file with
      | missing => simp [monitorTick, PARENT_PROCESS_CHECK, checkHeartbeat] at h
      | readError => simp [monitorTick, PARENT_PROCESS_CHECK, checkHeartbeat] at h
      | parsed ts =>
        cases ts with
        | none => simp [monitorTick, PARENT_PROCESS_CHECK, checkHeartbeat] at h
        | some t =>
          refine ⟨t, rfl, ?_⟩
          by_contra hlt
          simp [monitorTick, PARENT_PROCESS_CHECK, checkHeartbeat, hlt] at h
  · rintro ⟨hpa, ts, hfile, hstale⟩
    subst hpa; subst hfile
    simp [monitorTick, PARENT_PROCESS_CHECK, checkHeartbeat, hstale]

theorem mem_insertSorted (le : α → α → Bool) (a x : α) (l : List α) :
    x ∈ insertSorted le a l ↔ x = a ∨ x ∈ l := by
  induction l with
  | nil => simp [insertSorted]
  | cons b bs ih =>
    by_cases h : le a b = true
    · simp [insertSorted, h]
    · simp only [insertSorted, if_neg h, List.mem_cons, ih]
      tauto

theorem mem_stableSortBy (le : α → α → Bool) (x : α) (l : List α) :
    x ∈ stableSortBy le l ↔ x ∈ l := by
  induction l with
  | nil => simp [stableSortBy]
  | cons a as ih =>
    rw [stableSortBy, mem_insertSorted, ih, List.mem_cons]

/-- C10: the `total` field of `GET /api/records` equals the length of the
returned (type-filtered) `records` array, not the record count of the log;
and since the type filter runs after truncation to the last `limit` lines,
a request can return fewer than `limit` records of the requested type even
though more such records sit earlier in the log — witnessed by `c10Log`
with `limit=1`, `type=observation`: zero records returned while two
observation records exist in the log. -/
theorem C10_records_total_after_filter (limit : Nat) (typeFilter : Option String)
    (lines : List (Option MemRecord)) :
    (handleRecords limit typeFilter lines).total =
      (handleRecords limit typeFilter lines).records.length ∧
    handleRecords 1 (some "observation") c10Log = ⟨0, []⟩ ∧
    ((c10Log.filterMap id).filter (fun r => r.type == "observation")).length = 2 := by
  refine ⟨?_, by decide, by decide⟩
  cases typeFilter <;> rfl

/-- C8 counterexample: the request body `null` is syntactically valid JSON,
yet the handler answers 400 (destructuring `null` throws, and the `catch`
branch responds 400), so "400 exactly when the body is not syntactically
valid JSON" fails. -/
theorem C8_counterexample :
    (handleAnalyze (.parsed .jnull) 0 []).status = 400 ∧
    (handleAnalyze .parseError 0 []).status = 400 := ⟨rfl, rfl⟩

/-- C8 (amended): the handler answers 400 exactly when the body fails to
parse as JSON or parses to the JSON literal `null`; every other JSON value
— in particular any object missing `sessionData` or `sessionId` — is
answered 202 and enqueued without schema validation, with `sessionId`
defaulting to the current wall-clock time when the field is absent or
falsy. -/
theorem C8_analyze_validation (body : BodyParse) (now : Int) (queue : List AnalyzeTask) :
    ((handleAnalyze body now queue).status = 400 ↔
      (match body with
       | .parseError => True
       | .parsed .jnull => True
       | .parsed _ => False)) ∧
    (∀ fields, body = .parsed (.jobj fields) →
      (handleAnalyze body now queue).status = 202 ∧
      (handleAnalyze body now queue).queue =
        queue ++ [⟨(match getField (.jobj fields) "sessionId" with
                    | some sv => if jsTruthy (some sv) then .fromBody sv else .defaulted now
                    | none => .defaulted now),
                   getField (.jobj fields) "sessionData"⟩] ∧
      (handleAnalyze body now queue).queuePosition = some (queue.length + 1)) ∧
    (handleAnalyze (.parsed (.jobj [])) now queue).queue =
      queue ++ [⟨.defaulted now, none⟩] := by
  refine ⟨?_, ?_, ?_⟩
  · cases body with
    | parseError => simp [handleAnalyze]
    | parsed v => cases v <;> simp [handleAnalyze]
  · rintro fields rfl
    refine ⟨rfl, rfl, ?_⟩
    simp [handleAnalyze]
  · simp [handleAnalyze, getField, jsTruthy]

/-- C8 witness: a concrete object body lacking both fields is accepted with
status 202 and enqueued with a defaulted session id. -/
theorem C8_analyze_validation_witness :
    (handleAnalyze (.parsed (.jobj [])) 42 []).status = 202 :=
  ((C8_analyze_validation (.parsed (.jobj [])) 42 []).2.1 [] rfl).1

/-- C2 counterexample: an uncaught synchronous exception reaches the
`process.on('uncaughtException')` handler, which calls `shutdown()` — the
worker terminates even though the self-supervision logic made no shutdown
decision, refuting "uncaught synchronous errors do not terminate the
worker". -/
theorem C2_counterexample :
    initialWorkerState.alive = true ∧
    (workerStep initialWorkerState .uncaughtException).alive = false := ⟨rfl, rfl⟩

/-- C2 (amended): rejected asynchronous operations are only logged — the
`unhandledRejection` handler leaves the worker state untouched — and a
rejection of an analysis task is caught inside `processQueue`, handled
identically to success (logged, queue advances, worker stays alive); but an
uncaught synchronous error triggers `shutdown()` from its process-level
handler, terminating the worker just like a supervision-triggered
shutdown. -/
theorem C2_crash_isolation (s : WorkerState) (ok : Bool) :
    workerStep s .unhandledRejection = s ∧
    workerStep s (.finishTask false) = workerStep s (.finishTask true) ∧
    (workerStep s (.finishTask ok)).alive = s.alive ∧
    (workerStep s .uncaughtException).alive = false := by
  refine ⟨rfl, rfl, ?_, rfl⟩
  cases h : s.current with
  | none => simp [workerStep, h]
  | some t => cases hq : s.queue <;> simp [workerStep, h, hq]

theorem workerInv_init : WorkerInv initialWorkerState := ⟨rfl, fun _ => rfl⟩

theorem workerInv_step (s : WorkerState) (e : WorkerEvent) (h : WorkerInv s) :
    WorkerInv (workerStep s e) := by
  obtain ⟨horder, hflag⟩ := h
  cases e with
  | submit t =>
    constructor
    · simp [workerStep, horder]
    · intro hp
      exact hflag hp
  | wake =>
    by_cases hp : s.isProcessing = true
    · constructor
      · simp [workerStep, hp, horder]
      · simp only [workerStep, if_pos hp]
        exact hflag
    · cases hq : s.queue with
      | nil =>
        constructor
        · simp [workerStep, hp, hq, horder]
        · simp only [workerStep, if_neg hp, hq]
          exact hflag
      | cons t rest =>
        have hcur : s.current = none := hflag (by simpa using hp)
        constructor
        · simp only [workerStep, if_neg hp, hq]
          simp only [horder, hcur, hq]
          simp
        · simp only [workerStep, if_neg hp, hq]
          intro hcontra
          exact absurd hcontra (by simp)
  | finishTask ok =>
    cases hcur : s.current with
    | none =>
      constructor
      · simpa [workerStep, hcur] using horder
      · simp only [workerStep, hcur]
        intro _
        trivial
    | some t =>
      have hproc : s.isProcessing = true := by
        by_contra hcontra
        have hnone := hflag (by simpa using hcontra)
        rw [hcur] at hnone
        exact Option.noConfusion hnone
      cases hq : s.queue with
      | nil =>
        constructor
        · simp only [workerStep, hcur, hq]
          simp only [horder, hcur, hq]
          simp
        · intro _
          simp [workerStep, hcur, hq]
      | cons t2 rest =>
        constructor
        · simp only [workerStep, hcur, hq]
          simp only [horder, hcur, hq]
          simp
        · simp only [workerStep, hcur, hq, hproc]
          intro hcontra
          exact absurd hcontra (by simp [hproc])
  | uncaughtException =>
    exact ⟨horder, hflag⟩
  | unhandledRejection => exact ⟨horder, hflag⟩
  | supervisionShutdown =>
    exact ⟨horder, hflag⟩

theorem workerInv_run (evs : List WorkerEvent) : WorkerInv (runWorker evs) := by
  suffices h : ∀ s, WorkerInv s → WorkerInv (evs.foldl workerStep s) from
    h initialWorkerState workerInv_init
  induction evs with
  | nil => exact fun s hs => hs
  | cons e rest ih => exact fun s hs => ih (workerStep s e) (workerInv_step s e hs)

/-- C4: FIFO processing. After any interleaving of submissions,
`processQueue` invocations and task completions, the submission order
decomposes as completed tasks, then the single in-flight task (the type of
`current` ensures at most one task is ever in flight), then the pending
queue — so tasks finish in exactly the order they were submitted, the task
being processed is always the earliest unfinished submission, and a later
submission never starts before every earlier one has finished. -/
theorem C4_queue_fifo (evs : List WorkerEvent) :
    (runWorker evs).submitted =
      (runWorker evs).completed ++ (runWorker evs).current.toList ++ (runWorker evs).queue ∧
    (runWorker evs).completed <+: (runWorker evs).submitted ∧
    (∀ t, (runWorker evs).current = some t →
      (runWorker evs).submitted = (runWorker evs).completed ++ t :: (runWorker evs).queue) := by
  obtain ⟨horder, _⟩ := workerInv_run evs
  refine ⟨horder, ⟨(runWorker evs).current.toList ++ (runWorker evs).queue, ?_⟩,
    fun t ht => by simpa [ht] using horder⟩
  rw [horder, List.append_assoc]

/-- C4 witness: submitting one task and letting `processQueue` take it in
flight, the decomposition shows that task as the earliest unfinished
submission. -/
theorem C4_queue_fifo_witness :
    (runWorker [WorkerEvent.submit ⟨1⟩, WorkerEvent.wake]).submitted =
      (runWorker [WorkerEvent.submit ⟨1⟩, WorkerEvent.wake]).completed ++
        (⟨1⟩ : QueueTask) :: (runWorker [WorkerEvent.submit ⟨1⟩, WorkerEvent.wake]).queue :=
  (C4_queue_fifo [WorkerEvent.submit ⟨1⟩, WorkerEvent.wake]).2.2 ⟨1⟩ (by decide)

theorem foldl_score_count (c : Nat) (p : α → Bool) (l : List α) (a : Nat) :
    l.foldl (fun sc k => if p k then sc + c else sc) a = a + c * l.countP p := by
  induction l generalizing a with
  | nil => simp
  | cons x xs ih =>
    by_cases hx : p x = true
    · rw [List.foldl_cons, if_pos hx, ih, List.countP_cons_of_pos _ _ hx]
      ring
    · rw [List.foldl_cons, if_neg hx, ih, List.countP_cons_of_neg _ _ hx]

theorem foldl_add_mul_sum (g : α → Nat) (c : Nat) (l : List α) (a : Nat) :
    l.foldl (fun sc x => sc + c * g x) a = a + c * (l.map g).sum := by
  induction l generalizing a with
  | nil => simp
  | cons x xs ih =>
    rw [List.foldl_cons, ih, List.map_cons, List.sum_cons, Nat.mul_add]
    ring

theorem scoreEntity_formula (keywords : List String) (e : QEntity) (nowMs : Int) :
    scoreEntity keywords e nowMs =
      10 * keywords.countP (fun k => kwMatch k e.name) +
      2 * ((e.observations.map (fun obs => keywords.countP (fun k => kwMatch k obs))).sum) +
      recencyBonus e.timestamp nowMs := by
  unfold scoreEntity recencyBonus
  simp only [foldl_score_count, Nat.zero_add,
    foldl_add_mul_sum (fun obs => keywords.countP (fun k => kwMatch k obs)) 2]
  cases e.timestamp with
  | none => simp
  | some ts =>
    by_cases h7 : nowMs - ts < 7 * dayMs
    · simp [h7]
    · by_cases h30 : nowMs - ts < 30 * dayMs
      · simp [h7, h30]
      · simp [h7, h30]

theorem countP_mono_of_imp (p q : α → Bool) (l : List α)
    (h : ∀ a ∈ l, q a = true → p a = true) : l.countP q ≤ l.countP p := by
  induction l with
  | nil => simp
  | cons x xs ih =>
    have hxs : ∀ a ∈ xs, q a = true → p a = true := fun a ha => h a (List.mem_cons_of_mem x ha)
    by_cases hq : q x = true
    · rw [List.countP_cons_of_pos _ _ hq,
        List.countP_cons_of_pos _ _ (h x (List.mem_cons_self x xs) hq)]
      exact Nat.succ_le_succ (ih hxs)
    · rw [List.countP_cons_of_neg _ _ hq]
      by_cases hp : p x = true
      · rw [List.countP_cons_of_pos _ _ hp]
        exact Nat.le_succ_of_le (ih hxs)
      · rw [List.countP_cons_of_neg _ _ hp]
        exact ih hxs

/-- C7: the Graph Query Engine's entity score equals 10 per
case-insensitively name-matched keyword, plus 2 per matching
(keyword, observation) pair, plus an exclusive-tier recency bonus of 3
(under 7 days) or else 1 (under 30 days) or else 0 — never both tiers —
and the score is monotone in name matches: replacing the name by one whose
keyword matches are a subset can only lower the score, so an entity whose
name contains a queried keyword scores at least as high as the
otherwise-identical entity lacking that match. -/
theorem C7_entity_scoring (keywords : List String) (e : QEntity) (nowMs : Int)
    (weakerName : String) :
    scoreEntity keywords e nowMs =
      10 * keywords.countP (fun k => kwMatch k e.name) +
      2 * ((e.observations.map (fun obs => keywords.countP (fun k => kwMatch k obs))).sum) +
      recencyBonus e.timestamp nowMs ∧
    (recencyBonus e.timestamp nowMs = 3 ∨ recencyBonus e.timestamp nowMs = 1 ∨
      recencyBonus e.timestamp nowMs = 0) ∧
    ((∀ k ∈ keywords, kwMatch k weakerName = true → kwMatch k e.name = true) →
      scoreEntity keywords { e with name := weakerName } nowMs ≤
        scoreEntity keywords e nowMs) := by
  refine ⟨scoreEntity_formula keywords e nowMs, ?_, ?_⟩
  · unfold recencyBonus
    cases e.timestamp with
    | none => simp
    | some ts =>
      by_cases h7 : nowMs - ts < 7 * dayMs
      · simp [h7]
      · by_cases h30 : nowMs - ts < 30 * dayMs
        · simp [h7, h30]
        · simp [h7, h30]
  · intro hsub
    rw [scoreEntity_formula, scoreEntity_formula]
    simp only
    have hcount : keywords.countP (fun k => kwMatch k weakerName) ≤
        keywords.countP (fun k => kwMatch k e.name) :=
      countP_mono_of_imp _ _ keywords hsub
    have h10 : 10 * keywords.countP (fun k => kwMatch k weakerName) ≤
        10 * keywords.countP (fun k => kwMatch k e.name) :=
      Nat.mul_le_mul_left 10 hcount
    omega

/-- C7 witness: with keyword list `["ssl"]`, the entity named "ssl bug"
scores at least as high as the otherwise-identical entity named "other". -/
theorem C7_entity_scoring_witness :
    scoreEntity ["ssl"] ⟨"other", "t", none, ["note"], some 0⟩ 0 ≤
      scoreEntity ["ssl"] ⟨"ssl bug", "t", none, ["note"], some 0⟩ 0 :=
  (C7_entity_scoring ["ssl"] ⟨"ssl bug", "t", none, ["note"], some 0⟩ 0 "other").2.2
    (by decide)

theorem searchCore_entities_nil (graph : List QGraphLine) (keywords : List String)
    (cfg : QConfig) (current : Option String) (nowMs : Int)
    (h : ∀ e ∈ (collectGraph graph cfg current).1,
      scoreEntity keywords e nowMs < minScoreOf cfg) :
    (searchCore graph keywords cfg current nowMs).entities = [] := by
  have hfilter :
      (stableSortBy (fun a b => decide (b.score ≤ a.score))
        ((collectGraph graph cfg current).1.filterMap (fun e =>
          let sc := scoreEntity keywords e nowMs
          if sc > 0 then some (⟨e, sc⟩ : ScoredEntity) else none))).filter
        (fun sc => decide (minScoreOf cfg ≤ sc.score)) = [] := by
    apply List.filter_eq_nil_iff.mpr
    intro sc hmem
    rw [mem_stableSortBy] at hmem
    obtain ⟨e, he, heq⟩ := List.mem_filterMap.mp hmem
    simp only at heq
    by_cases hpos : scoreEntity keywords e nowMs > 0
    · rw [if_pos hpos] at heq
      obtain rfl := Option.some_injective _ heq
      have := h e he
      simp only [decide_eq_true_eq]
      omega
    · rw [if_neg hpos] at heq
      exact Option.noConfusion heq
  by_cases hk : keywords.isEmpty
  · simp [searchCore, hk]
  · simp only [Bool.not_eq_true] at hk
    simp [searchCore, hk, hfilter]

/-- C1: failure and no-match behaviour of the injection pipeline. If
`JSON.parse` of the stdin payload throws, or any exception is raised
inside the search pipeline, the handler prints the original raw input
unchanged. And when no loaded entity reaches the minimum score threshold,
the retained entity list is empty, the formatted memory block is the empty
string, and the emitted prompt is exactly the caller's original prompt
text. -/
theorem C1_injection_failsafe (inputData : String) (cfg : QConfig)
    (parsed : Option PromptData) (search : SearchOutcome)
    (graph : List QGraphLine) (keywords : List String) (current : Option String)
    (nowMs : Int) (d : PromptData)
    (hbelow : ∀ e ∈ (collectGraph graph cfg current).1,
      scoreEntity keywords e nowMs < minScoreOf cfg)
    (hprompt : d.prompt ≠ "") :
    handleUserPrompt inputData cfg none search = .passthrough inputData ∧
    handleUserPrompt inputData cfg parsed .threw = .passthrough inputData ∧
    (searchCore graph keywords cfg current nowMs).entities = [] ∧
    formatMemoryContext (searchCore graph keywords cfg current nowMs) cfg = "" ∧
    handleUserPrompt inputData cfg (some d)
        (.returned (searchCore graph keywords cfg current nowMs)) =
      if cfg.enabled then .enhancedOut ⟨d.prompt, d.prompt⟩ else .passthrough inputData := by
  have hnil := searchCore_entities_nil graph keywords cfg current nowMs hbelow
  refine ⟨?_, ?_, hnil, ?_, ?_⟩
  · by_cases he : cfg.enabled <;> simp [handleUserPrompt, he]
  · by_cases he : cfg.enabled
    · cases parsed with
      | none => simp [handleUserPrompt, he]
      | some d2 =>
        by_cases hp : (if d2.prompt ≠ "" then d2.prompt else d2.content) = ""
        · simp [handleUserPrompt, he, hp]
        · simp [handleUserPrompt, he, hp]
    · simp [handleUserPrompt, he]
  · simp [formatMemoryContext, hnil]
  · by_cases he : cfg.enabled
    · simp [handleUserPrompt, he, hprompt, hnil]
    · simp [handleUserPrompt, he]

/-- C1 witness: a concrete run — a graph with one entity scoring below the
default threshold of 30 — leaves the caller's prompt text untouched. -/
theorem C1_injection_failsafe_witness :
    handleUserPrompt "raw" DEFAULT_CONFIG (some ⟨"fix ssl", "fix ssl"⟩)
        (.returned (searchCore
          [QGraphLine.entity ⟨"ssl", "概念", none, [], none⟩] ["ssl"]
          DEFAULT_CONFIG none 0)) =
      .enhancedOut ⟨"fix ssl", "fix ssl"⟩ := by
  have h := C1_injection_failsafe "raw" DEFAULT_CONFIG
    (some ⟨"fix ssl", "fix ssl"⟩) .threw
    [QGraphLine.entity ⟨"ssl", "概念", none, [], none⟩] ["ssl"] none 0
    ⟨"fix ssl", "fix ssl"⟩ (by decide) (by decide)
  simpa using h.2.2.2.2

theorem filter_name_of_nodup (m : List GEntity) (n : String) (h : NodupNames m) :
    m.filter (fun e => e.name == n) = [] ∨
    ∃ x, m.filter (fun e => e.name == n) = [x] ∧ x.name = n := by
  induction m with
  | nil => left; rfl
  | cons e es ih =>
    obtain ⟨hnotin, hes⟩ := List.nodup_cons.mp h
    by_cases hn : e.name = n
    · right
      refine ⟨e, ?_, hn⟩
      rw [List.filter_cons_of_pos (by simp [hn])]
      have hnil : es.filter (fun x => x.name == n) = [] := by
        apply List.filter_eq_nil_iff.mpr
        intro x hx hxn
        apply hnotin
        show e.name ∈ List.map (fun e => e.name) es
        rw [hn]
        have hxname : x.name = n := by simpa using hxn
        rw [← hxname]
        exact List.mem_map_of_mem (fun e => e.name) hx
      rw [hnil]
    · rw [List.filter_cons_of_neg (by simp [hn])]
      exact ih hes

theorem nodupNames_insertEntity (m : List GEntity) (e : GEntity) (h : NodupNames m) :
    NodupNames (insertEntity m e) := by
  unfold insertEntity
  by_cases hany : m.any (fun x => x.name == e.name) = true
  · rw [if_pos hany]
    have hnames : (m.map (fun x =>
        if x.name == e.name then
          { x with observations := x.observations ++ e.observations }
        else x)).map (fun x => x.name) = m.map (fun x => x.name) := by
      rw [List.map_map]
      apply List.map_congr_left
      intro x _
      by_cases hx : x.name = e.name <;> simp [hx]
    unfold NodupNames
    rw [hnames]
    exact h
  · rw [if_neg hany]
    unfold NodupNames
    rw [List.map_append]
    simp only [List.map_cons, List.map_nil]
    apply List.Nodup.append h (List.nodup_singleton _)
    intro a ha hb
    simp only [List.mem_singleton] at hb
    subst hb
    obtain ⟨x, hx, hxname⟩ := List.mem_map.mp ha
    apply hany
    rw [List.any_eq_true]
    exact ⟨x, hx, by simp [hxname]⟩

theorem entityObsOf_insertEntity (m : List GEntity) (e : GEntity) (n : String)
    (h : NodupNames m) :
    entityObsOf (insertEntity m e) n =
      entityObsOf m n ++ (if e.name == n then e.observations else []) := by
  unfold insertEntity entityObsOf
  by_cases hany : m.any (fun x => x.name == e.name) = true
  · rw [if_pos hany]
    rw [List.filter_map]
    have hpf : ((fun x : GEntity => x.name == n) ∘ (fun x =>
        if x.name == e.name then
          { x with observations := x.observations ++ e.observations }
        else x)) = fun x : GEntity => x.name == n := by
      funext x
      by_cases hx : x.name = e.name <;> simp [hx]
    rw [hpf]
    by_cases hen : e.name = n
    · rcases filter_name_of_nodup m n h with hnil | ⟨x, hx, hxn⟩
      · obtain ⟨y, hy, hyn⟩ := List.any_eq_true.mp hany
        have hyn' : y.name = e.name := by simpa using hyn
        have : y ∈ m.filter (fun x => x.name == n) :=
          List.mem_filter.mpr ⟨hy, by simp [hyn', hen]⟩
        rw [hnil] at this
        exact absurd this (List.not_mem_nil y)
      · rw [hx]
        simp [hxn, hen]
    · have : ∀ x ∈ m.filter (fun x => x.name == n),
          (if x.name == e.name then
            { x with observations := x.observations ++ e.observations }
          else x) = x := by
        intro x hx
        have hxn : x.name = n := by simpa using (List.mem_filter.mp hx).2
        rw [if_neg (by simp [hxn]; exact fun hcontra => hen (hcontra ▸ hxn ▸ rfl))]
      rw [List.map_congr_left this]
      simp [hen]
  · rw [if_neg hany]
    rw [List.filter_append]
    by_cases hen : e.name = n
    · simp [hen]
    · simp [hen]

theorem foldl_insertEntity_inv (es : List GEntity) (m : List GEntity) (n : String)
    (h : NodupNames m) :
    NodupNames (es.foldl insertEntity m) ∧
    entityObsOf (es.foldl insertEntity m) n = entityObsOf m n ++ entityObsOf es n := by
  induction es generalizing m with
  | nil => exact ⟨h, by simp [entityObsOf]⟩
  | cons e es ih =>
    have hnodup := nodupNames_insertEntity m e h
    obtain ⟨ihnodup, ihobs⟩ := ih (insertEntity m e) hnodup
    refine ⟨ihnodup, ?_⟩
    rw [List.foldl_cons, ihobs, entityObsOf_insertEntity m e n h]
    have hcons : entityObsOf (e :: es) n =
        (if e.name == n then e.observations else []) ++ entityObsOf es n := by
      unfold entityObsOf
      by_cases hen : e.name = n
      · rw [List.filter_cons_of_pos (by simp [hen])]
        simp [hen]
      · rw [List.filter_cons_of_neg (by simp [hen])]
        simp [hen]
    rw [hcons, List.append_assoc]

theorem keys_insertRelation (m : List GRelation) (r : GRelation) :
    (insertRelation m r).map relKey =
      if relKey r ∈ m.map relKey then m.map relKey else m.map relKey ++ [relKey r] := by
  unfold insertRelation
  by_cases hany : m.any (fun x => relKey x == relKey r) = true
  · obtain ⟨x, hx, hxk⟩ := List.any_eq_true.mp hany
    have hin : relKey r ∈ m.map relKey := by
      rw [← show relKey x = relKey r by simpa using hxk]
      exact List.mem_map_of_mem relKey hx
    rw [if_pos hany, if_pos hin, List.map_map]
    apply List.map_congr_left
    intro y _
    by_cases hy : relKey y = relKey r <;> simp [hy]
  · have hnotin : relKey r ∉ m.map relKey := by
      intro hmem
      obtain ⟨x, hx, hxk⟩ := List.mem_map.mp hmem
      exact hany (List.any_eq_true.mpr ⟨x, hx, by simp [hxk]⟩)
    rw [if_neg hany, if_neg hnotin, List.map_append]
    rfl

theorem foldl_insertRelation_inv (rs : List GRelation) (m : List GRelation)
    (h : (m.map relKey).Nodup) :
    ((rs.foldl insertRelation m).map relKey).Nodup ∧
    (∀ k, k ∈ (rs.foldl insertRelation m).map relKey ↔
      k ∈ m.map relKey ∨ k ∈ rs.map relKey) := by
  induction rs generalizing m with
  | nil => exact ⟨h, fun k => by simp⟩
  | cons r rs ih =>
    have hkeys := keys_insertRelation m r
    have hnodup : ((insertRelation m r).map relKey).Nodup := by
      rw [hkeys]
      by_cases hin : relKey r ∈ m.map relKey
      · rw [if_pos hin]; exact h
      · rw [if_neg hin]
        apply List.Nodup.append h (List.nodup_singleton _)
        intro a ha hb
        simp only [List.mem_singleton] at hb
        subst hb
        exact hin ha
    obtain ⟨ihnodup, ihmem⟩ := ih (insertRelation m r) hnodup
    refine ⟨ihnodup, fun k => ?_⟩
    rw [List.foldl_cons] at *
    rw [ihmem k, hkeys]
    by_cases hin : relKey r ∈ m.map relKey
    · rw [if_pos hin]
      simp only [List.map_cons, List.mem_cons]
      constructor
      · rintro (hk | hk)
        · exact Or.inl hk
        · exact Or.inr (Or.inr hk)
      · rintro (hk | rfl | hk)
        · exact Or.inl hk
        · exact Or.inl hin
        · exact Or.inr hk
    · rw [if_neg hin]
      simp only [List.mem_append, List.mem_singleton, List.map_cons, List.mem_cons]
      tauto

theorem buildKnowledgeGraph_eq (log : List EventRecord) :
    buildKnowledgeGraph log =
      ((extractedEntities log).foldl insertEntity [],
        (extractedRelations log).foldl insertRelation []) := by
  have hfold : ∀ (l : List EventRecord) (m : List GEntity) (rs : List GRelation),
      l.foldl
        (fun (acc : List GEntity × List GRelation) (r : EventRecord) =>
          let extracted := extractRecord r
          (extracted.1.foldl insertEntity acc.1, acc.2 ++ extracted.2))
        (m, rs) =
      ((extractedEntities l).foldl insertEntity m, rs ++ extractedRelations l) := by
    intro l
    induction l with
    | nil => intro m rs; simp [extractedEntities, extractedRelations]
    | cons r l ih =>
      intro m rs
      rw [List.foldl_cons, ih]
      unfold extractedEntities extractedRelations
      simp [List.foldl_append]
  unfold buildKnowledgeGraph
  rw [hfold]
  simp

/-- C5: the full rebuild is a deterministic function of the Event Log (the
same log rebuilds to the identical graph), same-name entities have their
observation lists merged by appending every extracted observation in
extraction order (no dedup of observation strings), and the emitted
relations carry pairwise-distinct `(from, relationType, to)` keys covering
exactly the keys of the extracted relations. -/
theorem C5_full_rebuild (log : List EventRecord) (n : String) :
    buildKnowledgeGraph log = buildKnowledgeGraph log ∧
    entityObsOf (buildKnowledgeGraph log).1 n =
      (((extractedEntities log).filter (fun e => e.name == n)).map
        (fun e => e.observations)).flatten ∧
    ((buildKnowledgeGraph log).2.map relKey).Nodup ∧
    (∀ r, r ∈ extractedRelations log →
      relKey r ∈ (buildKnowledgeGraph log).2.map relKey) ∧
    (∀ r, r ∈ (buildKnowledgeGraph log).2 →
      relKey r ∈ (extractedRelations log).map relKey) := by
  have hne : NodupNames ([] : List GEntity) := List.nodup_nil
  have hrel := foldl_insertRelation_inv (extractedRelations log) [] List.nodup_nil
  have hent := foldl_insertEntity_inv (extractedEntities log) [] n hne
  rw [buildKnowledgeGraph_eq]
  refine ⟨rfl, ?_, ?_, ?_, ?_⟩
  · rw [hent.2]
    simp [entityObsOf]
  · exact hrel.1
  · intro r hr
    rw [hrel.2 (relKey r)]
    exact Or.inr (List.mem_map_of_mem relKey hr)
  · intro r hr
    have := (hrel.2 (relKey r)).mp (List.mem_map_of_mem relKey hr)
    simpa using this

/-- C5 witness: on `c5Log` the extracted `涉及文件` relation's key appears
among the rebuilt graph's relation keys. -/
theorem C5_full_rebuild_witness :
    relKey ⟨"T", "f.js", "涉及文件", none⟩ ∈
      (buildKnowledgeGraph c5Log).2.map relKey :=
  (C5_full_rebuild c5Log "T").2.2.2.1 ⟨"T", "f.js", "涉及文件", none⟩ (by decide)

theorem processedIds_append (a b : List GraphLine) :
    processedIds (a ++ b) = processedIds a ++ processedIds b := by
  induction a with
  | nil => rfl
  | cons it rest ih =>
    cases it with
    | entity e =>
      by_cases hpre : strStartsWith e.name "会话_" = true
      · simp only [List.cons_append, processedIds, if_pos hpre]
        exact congrArg (fun l => strDropChars e.name 3 :: l) ih
      · simp only [List.cons_append, processedIds, if_neg hpre]
        exact ih
    | relation r =>
      simp only [List.cons_append, processedIds]
      exact ih
    | badLine =>
      simp only [List.cons_append, processedIds]
      exact ih

theorem mem_processedIds (glines : List GraphLine) (e : GEntity)
    (hmem : GraphLine.entity e ∈ glines)
    (hpre : strStartsWith e.name "会话_" = true) :
    strDropChars e.name 3 ∈ processedIds glines := by
  induction glines with
  | nil => exact absurd hmem (List.not_mem_nil _)
  | cons it rest ih =>
    rcases List.mem_cons.mp hmem with heq | htail
    · rw [← heq]
      simp only [processedIds, if_pos hpre]
      exact List.mem_cons_self _ _
    · cases it with
      | entity e2 =>
        by_cases hpre2 : strStartsWith e2.name "会话_" = true
        · simp only [processedIds, if_pos hpre2]
          exact List.mem_cons_of_mem _ (ih htail)
        · simp only [processedIds, if_neg hpre2]
          exact ih htail
      | relation r => exact ih htail
      | badLine => exact ih htail

theorem strStartsWith_append (p rest : String) : strStartsWith (p ++ rest) p = true := by
  simp [strStartsWith, string_data_append]

theorem strDropChars_append3 (rest : String) :
    strDropChars ("会话_" ++ rest) 3 = rest := by
  unfold strDropChars
  rw [string_data_append]
  have hlen : ("会话_" : String).data.length = 3 := rfl
  rw [← hlen, List.drop_left]

theorem sessionEntity_mem_extract (s : SummaryRecord) :
    ∃ e, e ∈ (extractRecord (EventRecord.summary s)).1 ∧
      e.name = "会话_" ++ strTake s.id 8 := by
  unfold extractRecord extractEntitiesFromSummary
  exact ⟨_, List.mem_cons_self _ _, rfl⟩

theorem incremental_of_no_new (graph : List GraphLine) (log : List EventRecord)
    (h : log.filter (isNewRecord (processedIds graph)) = []) :
    buildKnowledgeGraphIncremental graph log = graph := by
  simp [buildKnowledgeGraphIncremental, h]

/-- C3 (amended): the incremental update is append-only — the old graph is
a prefix of the new file — and a summary record whose 8-character id
prefix is already present among the `会话_`-derived ids is skipped; for
logs holding only `session_summary` (and irrelevant) records the update is
idempotent, because each processed summary leaves behind a session entity
whose name embeds its id prefix. (Observation records leave no such
marker; rerunning on them duplicates output, see the counterexample.) -/
theorem C3_incremental_append (graph : List GraphLine) (log : List EventRecord)
    (hnoobs : hasObsRecord log = false) :
    graph <+: buildKnowledgeGraphIncremental graph log ∧
    (∀ s : SummaryRecord, strTake s.id 8 ∈ processedIds graph →
      isNewRecord (processedIds graph) (.summary s) = false) ∧
    buildKnowledgeGraphIncremental (buildKnowledgeGraphIncremental graph log) log =
      buildKnowledgeGraphIncremental graph log := by
  refine ⟨?_, ?_, ?_⟩
  · simp only [buildKnowledgeGraphIncremental]
    by_cases hempty : (log.filter (isNewRecord (processedIds graph))).isEmpty = true
    · rw [if_pos hempty]
    · rw [if_neg hempty]
      exact ⟨_, (List.append_assoc _ _ _).symm⟩
  · intro s hmem
    simp [isNewRecord, List.elem_iff, hmem]
  · by_cases hempty : log.filter (isNewRecord (processedIds graph)) = []
    · rw [incremental_of_no_new graph log hempty, incremental_of_no_new graph log hempty]
    · have hg1 : buildKnowledgeGraphIncremental graph log =
          graph ++
            ((log.filter (isNewRecord (processedIds graph))).map
              (fun r => (extractRecord r).1)).flatten.map GraphLine.entity ++
            ((log.filter (isNewRecord (processedIds graph))).map
              (fun r => (extractRecord r).2)).flatten.map GraphLine.relation := by
        simp only [buildKnowledgeGraphIncremental]
        rw [if_neg (by simpa [List.isEmpty_iff] using hempty)]
      apply incremental_of_no_new
      apply List.filter_eq_nil_iff.mpr
      intro r hr hnew
      cases r with
      | otherRecord => simp [isNewRecord] at hnew
      | obs o =>
        have hall := List.any_eq_false.mp (by simpa [hasObsRecord] using hnoobs)
        have hfalse := hall (EventRecord.obs o) hr
        simp at hfalse
      | summary s =>
        have hnotin1 : strTake s.id 8 ∉
            processedIds (buildKnowledgeGraphIncremental graph log) := by
          intro hmem1
          simp [isNewRecord, List.elem_iff, hmem1] at hnew
        apply hnotin1
        by_cases hs : isNewRecord (processedIds graph) (.summary s) = true
        · obtain ⟨se, hse, hsename⟩ := sessionEntity_mem_extract s
          have hmemE : GraphLine.entity se ∈
              buildKnowledgeGraphIncremental graph log := by
            rw [hg1]
            refine List.mem_append.mpr (Or.inl (List.mem_append.mpr (Or.inr ?_)))
            apply List.mem_map_of_mem
            apply List.mem_flatten.mpr
            refine ⟨(extractRecord (EventRecord.summary s)).1, ?_, hse⟩
            exact List.mem_map_of_mem _ (List.mem_filter.mpr ⟨hr, hs⟩)
          have hdrop := mem_processedIds _ se hmemE
            (by rw [hsename]; exact strStartsWith_append _ _)
          rw [hsename, strDropChars_append3] at hdrop
          exact hdrop
        · have hmem0 : strTake s.id 8 ∈ processedIds graph := by
            have : (processedIds graph).contains (strTake s.id 8) = true := by
              by_contra hcontra
              exact hs (by simp [isNewRecord, Bool.not_eq_true] at hcontra ⊢; simp [hcontra])
            exact List.elem_iff.mp this
          rw [hg1, List.append_assoc, processedIds_append]
          exact List.mem_append.mpr (Or.inl hmem0)

/-- C3 counterexample: after one incremental pass over `c3Log` every record
of the log is fully reflected in the graph, yet a second incremental pass
over the unchanged log appends the whole derivation again — the entity
line is duplicated (`g2 = g1 ++ g1`, length 2 instead of 1), refuting
"processes exactly the records not yet reflected ... without duplicating
anything already written". -/
theorem C3_counterexample :
    (buildKnowledgeGraphIncremental [] c3Log).length = 1 ∧
    buildKnowledgeGraphIncremental (buildKnowledgeGraphIncremental [] c3Log) c3Log =
      buildKnowledgeGraphIncremental [] c3Log ++ buildKnowledgeGraphIncremental [] c3Log ∧
    buildKnowledgeGraphIncremental (buildKnowledgeGraphIncremental [] c3Log) c3Log ≠
      buildKnowledgeGraphIncremental [] c3Log := by
  refine ⟨by decide, by decide, by decide⟩

/-- C3 witness: on a summary-only log the amended theorem applies — the
second incremental pass is a no-op. -/
theorem C3_incremental_append_witness :
    buildKnowledgeGraphIncremental (buildKnowledgeGraphIncremental [] c3SummaryLog)
        c3SummaryLog =
      buildKnowledgeGraphIncremental [] c3SummaryLog :=
  (C3_incremental_append [] c3SummaryLog (by decide)).2.2

/-- C6: graceful degradation of `analyzeSession`. Whatever the session
data, a transport failure of the single API call (connection refused,
timeout, bad status, unparseable response) yields `null`, and an
environment without any credential yields `null` — in both cases by
returning through the `catch`/short-circuit paths, never by raising; the
embedding is a total function into `Option`, there is no exceptional
result. -/
theorem C6_analyze_graceful (env : EnvConfig) (sessionData : List SessionRecord)
    (api : ApiOutcome) (parseSummaryJson : String → Option SummaryBody) (msg : String) :
    analyzeSession env sessionData (.transportError msg) parseSummaryJson = none ∧
    analyzeSession emptyEnv sessionData api parseSummaryJson = none := by
  constructor
  · unfold analyzeSession
    cases hcfg : getApiConfig env with
    | none => rfl
    | some cfg =>
      by_cases hu : (sessionData.filterMap
          (fun r => match r with | SessionRecord.userMessage c => some c | _ => none)).isEmpty
      · simp [hu]
      · simp [hu, generateSessionSummary]
  · unfold analyzeSession
    have hnone : getApiConfig emptyEnv = none := rfl
    rw [hnone]

end ClaudeCodeMem
